import Mathlib

/-!
Verification development for the Bloop repository (a browser voice-and-drawing
assistant).  The definitions below are shallow embeddings of the program's
functions:

* the audio scheduling part of `handleServerMessage` (src/App.tsx, lines 493-527),
* the microphone `onaudioprocess` handler (src/App.tsx, lines 323-341) together
  with the per-turn canvas-snapshot bookkeeping (src/App.tsx, lines 548-550),
* the layer-history model of `DrawingCanvas`
  (src/components/DrawingCanvas.tsx: `addLayer`, `undo`, `redo`, `clearCanvas`,
  `renderCanvas`),
* the save / restore path through `localStorage`
  (src/App.tsx `handleSaveDrawing` and the startup effect),
* the error paths (`handleStart`'s catch, the session `onerror` callback and
  `cleanup`, src/App.tsx lines 204-225, 347-361, 397-402),
* the per-pixel AI-image normalization loop of the pixel-processing
  `DrawingCanvas` variants (src/unnamed/part_001 lines 112-136 and
  src/unnamed/part_003 lines 187-206).

Times are modelled as rationals, JS array indices as integers (the code relies
on `historyIndex` taking the value `-1`), pixels as quadruples of naturals.
All definitions come first; the lemmas and theorems follow.
-/

/-! ## Definitions -/

/-! ### Audio output scheduling (src/App.tsx, handleServerMessage lines 493-527)

The handler keeps a single mutable cell `nextAudioStartTimeRef`.  For a server
audio chunk it executes (when the AI is not drawing):

    nextAudioStartTimeRef.current = Math.max(nextAudioStartTimeRef.current, audioContext.currentTime);
    const audioBuffer = await decodeAudioData(...);
    source.start(nextAudioStartTimeRef.current);
    nextAudioStartTimeRef.current += audioBuffer.duration;

When `isAiDrawingRef.current` is set the chunk is dropped before any of this
runs ("Suppressing audio because AI is drawing"). -/

/-- One server audio chunk processed by `handleServerMessage`
(src/App.tsx lines 493-527).  Arguments: the `isAiDrawingRef` flag, the
current value of `nextAudioStartTimeRef`, `audioContext.currentTime` at
arrival, and the decoded buffer's duration.  Returns `none` when the chunk is
suppressed, otherwise `some (startTime, newNextAudioStartTime)` where
`startTime` is the argument passed to `source.start`. -/
def handleServerAudio (isAiDrawing : Bool) (next cur dur : ℚ) : Option (ℚ × ℚ) :=
  if isAiDrawing then none
  else
    let start := max next cur
    some (start, start + dur)

/-- Start times produced by feeding a sequence of chunks
(`currentTime`, `duration` pairs, in arrival order) through the scheduler,
threading `nextAudioStartTimeRef` exactly as `handleServerMessage` does. -/
def chunkStartTimes (next : ℚ) : List (ℚ × ℚ) → List ℚ
  | [] => []
  | (cur, dur) :: rest =>
      let start := max next cur
      start :: chunkStartTimes (start + dur) rest

/-! ### Microphone capture (src/App.tsx, onaudioprocess lines 323-341) -/

/-- Modelled from the spec: one sample of the PCM encoder in
`utils/audioUtils.ts`, a file that is not part of the repository snapshot
(src/App.tsx line 4 imports `createBlob`, `decode`, `decodeAudioData` from
it).  The spec describes this stage as "microphone capture → PCM encoding →
streaming send": a Float32 sample is scaled to the signed 16-bit range
(truncated toward zero and wrapped, as an `Int16Array` store does). -/
def pcm16Sample (s : ℚ) : ℤ :=
  let scaled : ℚ := s * 32768
  let t : ℤ := if 0 ≤ scaled then ⌊scaled⌋ else -⌊-scaled⌋
  (t + 2 ^ 15) % 2 ^ 16 - 2 ^ 15

/-- Modelled from the spec: `createBlob` of the missing
`utils/audioUtils.ts` encodes the whole Float32 buffer sample-wise into
16-bit PCM. -/
def createBlob (data : List ℚ) : List ℤ :=
  data.map pcm16Sample

/-- A message sent to the live session with `sendRealtimeInput`: either a
canvas snapshot (`mimeType: 'image/png'`, src/App.tsx line 336) or a PCM
audio blob (line 339). -/
inductive RealtimeInput where
  | imagePng (base64 : String)
  | audioPcm (pcm : List ℤ)
  deriving DecidableEq, Repr

/-- Extraction of the base64 payload of a data URL:
`imageDataUrl.split(',')[1]` (src/App.tsx line 335). -/
def dataUrlBase64 (s : String) : String :=
  (s.splitOn ",").getD 1 ""

/-- The per-turn bookkeeping refs `hasSentCanvasForThisTurnRef` and
`turnCanvasSnapshotRef` (src/App.tsx lines 95-96). -/
structure TurnState where
  hasSentCanvasForThisTurn : Bool
  turnCanvasSnapshot : Option String
  deriving DecidableEq, Repr

/-- The `onaudioprocess` handler (src/App.tsx lines 323-341).  Arguments: the
`isAiDrawingRef` flag, the canvas data URL `getImageDataUrl()` would return
(`none` when the canvas ref is unset), the microphone buffer, and the current
turn state.  Returns the new turn state and the list of messages passed to
`sendRealtimeInput`, in order.  While the AI is drawing the handler returns
immediately and nothing is sent. -/
def onaudioprocess (isAiDrawing : Bool) (canvasUrl : Option String)
    (buffer : List ℚ) (st : TurnState) : TurnState × List RealtimeInput :=
  if isAiDrawing then (st, [])
  else
    let pcm := RealtimeInput.audioPcm (createBlob buffer)
    if st.hasSentCanvasForThisTurn then (st, [pcm])
    else
      match canvasUrl with
      | some url =>
          if url ≠ "" then
            (⟨true, some url⟩, [RealtimeInput.imagePng (dataUrlBase64 url), pcm])
          else (⟨true, st.turnCanvasSnapshot⟩, [pcm])
      | none => (⟨true, st.turnCanvasSnapshot⟩, [pcm])

/-- Events observable during an active session that touch the per-turn refs:
a microphone `onaudioprocess` callback, a server message carrying
`turnComplete` (src/App.tsx lines 548-550), or any other server message
(which leaves both refs untouched). -/
inductive SessionEvent where
  | audioProcess (isAiDrawing : Bool) (canvasUrl : Option String) (buffer : List ℚ)
  | serverTurnComplete
  | serverOther

/-- Effect of one session event on the per-turn state, with the messages it
sends: `turnComplete` resets `hasSentCanvasForThisTurn` to `false` and clears
the snapshot (src/App.tsx lines 548-550). -/
def sessionStep (st : TurnState) : SessionEvent → TurnState × List RealtimeInput
  | .audioProcess d url buf => onaudioprocess d url buf st
  | .serverTurnComplete => (⟨false, none⟩, [])
  | .serverOther => (st, [])

/-- All messages sent over a sequence of session events. -/
def sessionRun (st : TurnState) : List SessionEvent → List RealtimeInput
  | [] => []
  | e :: rest => (sessionStep st e).2 ++ sessionRun (sessionStep st e).1 rest

/-- Number of canvas-image messages in a message list. -/
def countImageSends : List RealtimeInput → ℕ
  | [] => 0
  | RealtimeInput.imagePng _ :: rest => countImageSends rest + 1
  | RealtimeInput.audioPcm _ :: rest => countImageSends rest

/-! ### Layer history of DrawingCanvas (src/components/DrawingCanvas.tsx)

The component keeps `layersRef` (an array of offscreen canvases) and
`historyIndexRef` (initially `-1`, pointing at the top-most visible layer).
Layers are abstract here (`α`); `renderCanvas` draws `layers[0..historyIndex]`
in order onto the cleared visible canvas.  Each operation reports
`onHistoryUpdate(canUndo, canRedo)` exactly as in the source. -/

/-- State of `layersRef` together with `historyIndexRef`
(src/components/DrawingCanvas.tsx lines 28-29).  The index is an integer
because the source uses `-1` for the empty history. -/
structure HistoryState (α : Type) where
  layers : List α
  historyIndex : ℤ
  deriving DecidableEq, Repr

/-- Layers that `renderCanvas` (lines 42-57) draws onto the visible canvas:
`layers[0..historyIndex]` in order.  For `historyIndex ≥ -1`, `List.take`
of `(historyIndex + 1).toNat` is exactly the loop `for i in [0, historyIndex]`. -/
def visibleLayers {α : Type} (st : HistoryState α) : List α :=
  st.layers.take (st.historyIndex + 1).toNat

/-- The pair `(historyIndex > -1, historyIndex < layers.length - 1)` — the
canUndo / canRedo formulas of the claim, evaluated on a state. -/
def historyFlags {α : Type} (st : HistoryState α) : Bool × Bool :=
  (decide (-1 < st.historyIndex),
   decide (st.historyIndex < (st.layers.length : ℤ) - 1))

/-- Embeds `addLayer` (src/components/DrawingCanvas.tsx lines 59-75): if
layers above `historyIndex` exist they are discarded
(`slice(0, historyIndex + 1)`), the new layer is pushed, the index
incremented, and `onHistoryUpdate(historyIndex > -1, false)` is reported.
Returns the new state and the reported `(canUndo, canRedo)` pair. -/
def addLayer {α : Type} (st : HistoryState α) (newLayer : α) :
    HistoryState α × (Bool × Bool) :=
  let kept := if st.historyIndex < (st.layers.length : ℤ) - 1
              then st.layers.take (st.historyIndex + 1).toNat
              else st.layers
  let idx := st.historyIndex + 1
  (⟨kept ++ [newLayer], idx⟩, (decide (-1 < idx), false))

/-- Embeds `undo` (lines 77-83): when `historyIndex > -1`, decrement,
re-render, and report `(historyIndex > -1, true)`; otherwise do nothing (and
report nothing). -/
def undo {α : Type} (st : HistoryState α) :
    HistoryState α × Option (Bool × Bool) :=
  if -1 < st.historyIndex then
    let idx := st.historyIndex - 1
    (⟨st.layers, idx⟩, some (decide (-1 < idx), true))
  else (st, none)

/-- Embeds `redo` (lines 85-91): when `historyIndex < layers.length - 1`,
increment, re-render, and report `(true, historyIndex < layers.length - 1)`;
otherwise do nothing. -/
def redo {α : Type} (st : HistoryState α) :
    HistoryState α × Option (Bool × Bool) :=
  if st.historyIndex < (st.layers.length : ℤ) - 1 then
    let idx := st.historyIndex + 1
    (⟨st.layers, idx⟩, some (true, decide (idx < (st.layers.length : ℤ) - 1)))
  else (st, none)

/-- Embeds `clearCanvas` (lines 93-98): empty the layer array, reset the
index to `-1`, re-render, and report `(false, false)`. -/
def clearCanvas {α : Type} (_st : HistoryState α) :
    HistoryState α × (Bool × Bool) :=
  (⟨[], -1⟩, (false, false))

/-- The history-index invariant `-1 ≤ historyIndex ≤ layers.length - 1`. -/
abbrev historyInv {α : Type} (st : HistoryState α) : Prop :=
  -1 ≤ st.historyIndex ∧ st.historyIndex ≤ (st.layers.length : ℤ) - 1

/-! ### DrawingCanvas props and the AI-compositing effect -/

/-- Props App passes to `DrawingCanvas` (src/App.tsx lines 682-689), as the
name → value map the component receives at runtime; only the string-valued
props matter here.  The generated image is passed under the name
`aiImageToLoad` (line 685). -/
def appCanvasProps (aiImageToLoad : Option String)
    (initialDrawingUrl : Option String) : List (String × String) :=
  (match aiImageToLoad with
   | some url => [("aiImageToLoad", url)]
   | none => []) ++
  (match initialDrawingUrl with
   | some url => [("initialDrawingUrl", url)]
   | none => [])

/-- Reading a prop by name, with JS semantics: an absent name reads as
`undefined` (`none`). -/
def readProp (props : List (String × String)) (name : String) : Option String :=
  (props.find? (fun p => p.1 = name)).map Prod.snd

/-- The AI-compositing effect of `DrawingCanvas`
(src/components/DrawingCanvas.tsx lines 167-194): when the prop named
`aiDrawingToLoad` (declared on line 5) is non-null, the decoded image becomes
a new layer appended with `addLayer` (the successful `image.onload` path) and
`onAiDrawingComplete` is called.  Returns the new history state and whether
completion was signalled; a layer is identified by the data URL it was
decoded from. -/
def aiDrawingEffect (props : List (String × String)) (st : HistoryState String) :
    HistoryState String × Bool :=
  match readProp props "aiDrawingToLoad" with
  | some url => ((addLayer st url).1, true)
  | none => (st, false)

/-- A concrete generated image, as handed to `setAiImageToLoad`
(src/App.tsx line 462). -/
def generatedImageExample : String := "data:image/png;base64,AAAA"

/-! ### Persistent storage (src/App.tsx lines 135-140 and 568-578) -/

/-- Browser `localStorage` modelled as an association list of keys and
values. -/
abbrev Storage := List (String × String)

/-- The single storage key the app uses (src/App.tsx lines 136 and 571). -/
def savedDrawingKey : String := "bloop-bloop-saved-drawing"

/-- Embeds `localStorage.setItem`: the new binding shadows any old one. -/
def storageSetItem (s : Storage) (k v : String) : Storage :=
  (k, v) :: s

/-- Embeds `localStorage.getItem`. -/
def storageGetItem (s : Storage) (k : String) : Option String :=
  (s.find? (fun p => p.1 = k)).map Prod.snd

/-- Embeds `handleSaveDrawing` (src/App.tsx lines 568-578): read the canvas
data URL via `getImageDataUrl()` and, when truthy (`if (imageDataUrl)`),
store it under `savedDrawingKey`. -/
def handleSaveDrawing (canvasDataUrl : String) (s : Storage) : Storage :=
  if canvasDataUrl ≠ "" then storageSetItem s savedDrawingKey canvasDataUrl else s

/-- Embeds the startup effect (src/App.tsx lines 135-140): read
`savedDrawingKey`; a truthy (non-empty) value becomes `initialDrawingUrl`. -/
def loadSavedDrawing (s : Storage) : Option String :=
  match storageGetItem s savedDrawingKey with
  | some v => if v ≠ "" then some v else none
  | none => none

/-- Embeds the DrawingCanvas initialization
(src/components/DrawingCanvas.tsx lines 141-158): with an
`initialDrawingUrl` the decoded image becomes the initial layer via
`addLayer` on the fresh state (`layers = []`, `historyIndex = -1`); otherwise
`clearCanvas` starts a clean slate. -/
def initDrawingCanvas (initialUrl : Option String) : HistoryState String :=
  match initialUrl with
  | some url => (addLayer ⟨[], -1⟩ url).1
  | none => (clearCanvas (⟨[], -1⟩ : HistoryState String)).1

/-- The operations of the app (src/App.tsx) viewed by their effect on
persistent browser storage.  `opThemeToggle` stands for the `ThemeToggle`
component whose source file is not in the repository snapshot; modelled from
the spec: the data-model section says nothing is persisted beyond the
drawing's data-URL string, so the theme toggle — like every operation other
than saving — writes nothing to persistent storage.  Everything else is read
directly from src/: line 571 is the sole `localStorage.setItem` in the
sources, and there is no other persistence API call. -/
inductive AppOperation where
  | opHandleStart
  | opHandleStop
  | opHandleServerMessage
  | opHandleUndo
  | opHandleRedo
  | opToggleRadio
  | opThemeToggle
  | opDrawStroke
  | opHandleSaveDrawing (canvasDataUrl : String)
  deriving DecidableEq, Repr

/-- Effect of each operation on persistent storage: only
`handleSaveDrawing` writes. -/
def opStorageEffect : AppOperation → Storage → Storage
  | AppOperation.opHandleSaveDrawing u, s => handleSaveDrawing u s
  | _, s => s

/-! ### Error paths (src/App.tsx lines 204-225, 347-361, 397-402) -/

/-- The `Status` union of src/types.ts. -/
inductive Status where
  | idle
  | connecting
  | active
  | error
  deriving DecidableEq, Repr

/-- The program state touched by the error handlers and by `cleanup`
(src/App.tsx): the UI status flag and message, the key-selected flag, and the
resources `cleanup` releases. -/
structure AppState where
  status : Status
  aiMessage : String
  isKeySelected : Bool
  wakeLockHeld : Bool
  micStreamActive : Bool
  scriptProcessorConnected : Bool
  mediaSourceConnected : Bool
  inputContextClosed : Bool
  outputContextClosed : Bool
  playbackSourceCount : ℕ
  nextAudioStartTime : ℚ
  drawingAudioPlaying : Bool
  radioPlaying : Bool
  radioWasPlayingOnStart : Bool
  deriving DecidableEq, Repr

/-- Embeds `cleanup` (src/App.tsx lines 204-225): release the wake lock, stop
the microphone tracks, disconnect the script processor and the media source,
close both audio contexts, stop and clear every scheduled playback source,
reset `nextAudioStartTimeRef` to 0, pause the drawing loop, and resume the
radio if it was playing when the session started. -/
def cleanup (s : AppState) : AppState :=
  { s with
    wakeLockHeld := false
    micStreamActive := false
    scriptProcessorConnected := false
    mediaSourceConnected := false
    inputContextClosed := true
    outputContextClosed := true
    playbackSourceCount := 0
    nextAudioStartTime := 0
    drawingAudioPlaying := false
    radioPlaying := if s.radioWasPlayingOnStart then true else s.radioPlaying
    radioWasPlayingOnStart := false }

/-- Substring test (`e.message.includes(...)`). -/
def containsSubstr (s pat : String) : Bool :=
  decide (pat.toList <:+: s.toList)

/-- The user-facing message chosen by the session `onerror` callback
(src/App.tsx lines 349-356). -/
def sessionErrorMessage (msg : String) : String :=
  if containsSubstr msg "not found" || containsSubstr msg "API key not valid" then
    "Connection failed. Please select a valid API key and try again."
  else if containsSubstr msg "Network error" then
    "Network error. Please check your connection and try again."
  else "An error occurred. Please try again."

/-- Embeds the session `onerror` callback (src/App.tsx lines 347-361): pick
the message (clearing `isKeySelected` on a key error), set the status flag to
`error`, and call `cleanup`. -/
def onSessionError (msg : String) (s : AppState) : AppState :=
  cleanup
    { s with
      isKeySelected :=
        if containsSubstr msg "not found" || containsSubstr msg "API key not valid"
        then false else s.isKeySelected
      status := Status.error
      aiMessage := sessionErrorMessage msg }

/-- Embeds the `catch` of `handleStart` (src/App.tsx lines 397-402): set the
status flag to `error` with a fixed message and call `cleanup`. -/
def handleStartCatch (s : AppState) : AppState :=
  cleanup
    { s with
      status := Status.error
      aiMessage := "Failed to start. Check console for details." }

/-- A concrete pre-error state: an active session with two scheduled playback
sources, a selected key, and `nextAudioStartTime = 5`. -/
def errStateExample : AppState :=
  { status := Status.active
    aiMessage := "Listening..."
    isKeySelected := true
    wakeLockHeld := true
    micStreamActive := true
    scriptProcessorConnected := true
    mediaSourceConnected := true
    inputContextClosed := false
    outputContextClosed := false
    playbackSourceCount := 2
    nextAudioStartTime := 5
    drawingAudioPlaying := false
    radioPlaying := false
    radioWasPlayingOnStart := false }

/-! ### AI-image pixel normalization (src/unnamed/part_001 lines 112-136,
src/unnamed/part_003 lines 187-206; both loops are character-identical) -/

/-- An RGBA pixel of the `ImageData` array. -/
structure Pixel where
  r : ℕ
  g : ℕ
  b : ℕ
  a : ℕ
  deriving DecidableEq, Repr

/-- One iteration of the per-pixel loop: with
`brightness = (r + g + b) / 3` (exact, the operands are small enough for
float division to be exact up to the comparison) and
`isLinePixel = alpha > 100 && brightness < 128`, a line pixel becomes the
opaque draw color `(64, 64, 64, 255)` and every other pixel gets alpha 0. -/
def processAiPixel (p : Pixel) : Pixel :=
  if 100 < p.a ∧ ((p.r : ℚ) + p.g + p.b) / 3 < 128 then ⟨64, 64, 64, 255⟩
  else { p with a := 0 }

/-- The whole loop `for (let i = 0; i < data.length; i += 4)` over the
image. -/
def processAiImage (img : List Pixel) : List Pixel :=
  img.map processAiPixel

/-! ## Lemmas and theorems -/

/-- Every scheduled start time is at least the scheduler state it started
from, provided all durations are nonnegative. -/
lemma chunkStartTimes_le (next : ℚ) (l : List (ℚ × ℚ))
    (hd : ∀ p ∈ l, 0 ≤ p.2) :
    ∀ t ∈ chunkStartTimes next l, next ≤ t := by
  induction l generalizing next with
  | nil => intro t ht; simp [chunkStartTimes] at ht
  | cons p rest ih =>
      intro t ht
      obtain ⟨cur, dur⟩ := p
      simp only [chunkStartTimes, List.mem_cons] at ht
      rcases ht with rfl | ht
      · exact le_max_left _ _
      · have h0 : (0 : ℚ) ≤ dur := hd (cur, dur) (List.mem_cons_self _ _)
        have := ih (max next cur + dur) (fun q hq => hd q (List.mem_cons_of_mem _ hq)) t ht
        calc next ≤ max next cur := le_max_left _ _
          _ ≤ max next cur + dur := le_add_of_nonneg_right h0
          _ ≤ t := this

/-- Start times of a chunk sequence are nondecreasing (arrival order is play
order), provided all durations are nonnegative. -/
lemma chunkStartTimes_chain (next : ℚ) (l : List (ℚ × ℚ))
    (hd : ∀ p ∈ l, 0 ≤ p.2) :
    List.Chain' (· ≤ ·) (chunkStartTimes next l) := by
  induction l generalizing next with
  | nil => simp [chunkStartTimes]
  | cons p rest ih =>
      obtain ⟨cur, dur⟩ := p
      have h0 : (0 : ℚ) ≤ dur := hd (cur, dur) (List.mem_cons_self _ _)
      have hrest : ∀ q ∈ rest, (0 : ℚ) ≤ q.2 := fun q hq => hd q (List.mem_cons_of_mem _ hq)
      simp only [chunkStartTimes]
      refine List.chain'_cons'.mpr ⟨?_, ih (max next cur + dur) hrest⟩
      intro t ht
      have hmem := List.mem_of_mem_head? ht
      have := chunkStartTimes_le (max next cur + dur) rest hrest t hmem
      calc max next cur ≤ max next cur + dur := le_add_of_nonneg_right h0
        _ ≤ t := this

/-- C1.  Gapless scheduled playback: a server audio chunk handled while the AI
is not drawing is scheduled to start at
`max nextAudioStartTime audioContext.currentTime`, and `nextAudioStartTime` is
then advanced by exactly the buffer's duration; consequently a chunk arriving
while the previously scheduled audio has not yet finished
(`currentTime ≤ nextAudioStartTime`) starts exactly at `nextAudioStartTime`,
i.e. the instant the previous chunk ends, with no gap; and across any sequence
of chunks the scheduled start times follow arrival order (they are
nondecreasing). -/
theorem audio_chunks_gapless_in_order (next cur dur : ℚ) :
    handleServerAudio false next cur dur = some (max next cur, max next cur + dur)
    ∧ (cur ≤ next → handleServerAudio false next cur dur = some (next, next + dur))
    ∧ (∀ l : List (ℚ × ℚ), (∀ p ∈ l, 0 ≤ p.2) →
        List.Chain' (· ≤ ·) (chunkStartTimes next l)) := by
  refine ⟨rfl, ?_, ?_⟩
  · intro h
    simp [handleServerAudio, max_eq_left h]
  · intro l hl
    exact chunkStartTimes_chain next l hl

/-- Witness for C1 at concrete inputs: with `nextAudioStartTime = 10`, a chunk
arriving at `currentTime = 7` (before the previous audio ends) with duration
`2` starts exactly at `10` and advances the state to `12`. -/
theorem audio_chunks_gapless_in_order_witness :
    handleServerAudio false 10 7 2 = some (10, 12) := by
  have h := audio_chunks_gapless_in_order 10 7 2
  have h2 := h.2.1 (by norm_num)
  norm_num at h2
  exact h2

/-- Unfolding of `undo` when the guard holds. -/
lemma undo_of_pos {α : Type} (st : HistoryState α) (h : -1 < st.historyIndex) :
    undo st = (⟨st.layers, st.historyIndex - 1⟩,
      some (decide (-1 < st.historyIndex - 1), true)) := by
  unfold undo
  rw [if_pos h]

/-- Unfolding of `undo` when the guard fails. -/
lemma undo_of_nonpos {α : Type} (st : HistoryState α)
    (h : ¬ -1 < st.historyIndex) : undo st = (st, none) := by
  unfold undo
  rw [if_neg h]

/-- Unfolding of `redo` when the guard holds. -/
lemma redo_of_lt {α : Type} (st : HistoryState α)
    (h : st.historyIndex < (st.layers.length : ℤ) - 1) :
    redo st = (⟨st.layers, st.historyIndex + 1⟩,
      some (true, decide (st.historyIndex + 1 < (st.layers.length : ℤ) - 1))) := by
  unfold redo
  rw [if_pos h]

/-- Unfolding of `redo` when the guard fails. -/
lemma redo_of_ge {α : Type} (st : HistoryState α)
    (h : ¬ st.historyIndex < (st.layers.length : ℤ) - 1) :
    redo st = (st, none) := by
  unfold redo
  rw [if_neg h]

/-- After `addLayer` the index points at the appended layer: the new index is
the new length minus one. -/
lemma addLayer_index_top {α : Type} (st : HistoryState α) (x : α)
    (h : historyInv st) :
    (addLayer st x).1.historyIndex = ((addLayer st x).1.layers.length : ℤ) - 1 := by
  obtain ⟨h1, h2⟩ := h
  by_cases hc : st.historyIndex < (st.layers.length : ℤ) - 1
  · simp only [addLayer, if_pos hc, List.length_append, List.length_take,
      List.length_cons, List.length_nil]
    omega
  · simp only [addLayer, if_neg hc, List.length_append, List.length_cons,
      List.length_nil]
    omega

/-- C8.  History-index invariant: each of `addLayer`, `undo`, `redo`,
`clearCanvas` preserves `-1 ≤ historyIndex ≤ layers.length - 1`, and every
`(canUndo, canRedo)` pair reported to `onHistoryUpdate` equals exactly
`(historyIndex > -1, historyIndex < layers.length - 1)` of the resulting
state; moreover `addLayer` first truncates the layers above the index, so
immediately after it the new layer is the top of history
(`historyIndex = layers.length - 1` and the appended layer is last) and the
reported canRedo is `false`. -/
theorem history_index_invariant {α : Type} (st : HistoryState α) (x : α)
    (h : historyInv st) :
    (historyInv (addLayer st x).1
      ∧ (addLayer st x).2 = historyFlags (addLayer st x).1
      ∧ (addLayer st x).1.historyIndex = ((addLayer st x).1.layers.length : ℤ) - 1
      ∧ (addLayer st x).1.layers.getLast? = some x
      ∧ ((addLayer st x).2).2 = false)
    ∧ (historyInv (undo st).1
      ∧ ∀ rep ∈ (undo st).2, rep = historyFlags (undo st).1)
    ∧ (historyInv (redo st).1
      ∧ ∀ rep ∈ (redo st).2, rep = historyFlags (redo st).1)
    ∧ (historyInv (clearCanvas st).1
      ∧ (clearCanvas st).2 = historyFlags (clearCanvas st).1) := by
  obtain ⟨h1, h2⟩ := h
  have htop := addLayer_index_top st x ⟨h1, h2⟩
  have hidx : (addLayer st x).1.historyIndex = st.historyIndex + 1 := rfl
  refine ⟨⟨⟨?_, ?_⟩, ?_, htop, ?_, rfl⟩, ?_, ?_, ?_, ?_⟩
  · rw [hidx]
    omega
  · omega
  · have hfalse : decide ((addLayer st x).1.historyIndex
        < (((addLayer st x).1.layers.length : ℤ) - 1)) = false := by
      simp only [decide_eq_false_iff_not, not_lt]
      exact le_of_eq htop.symm
    show (decide (-1 < st.historyIndex + 1), false)
        = (decide (-1 < (addLayer st x).1.historyIndex),
           decide ((addLayer st x).1.historyIndex
             < (((addLayer st x).1.layers.length : ℤ) - 1)))
    rw [hfalse, hidx]
  · show ((if st.historyIndex < (st.layers.length : ℤ) - 1
        then st.layers.take (st.historyIndex + 1).toNat
        else st.layers) ++ [x]).getLast? = some x
    exact List.getLast?_concat _
  · by_cases hc : -1 < st.historyIndex
    · rw [undo_of_pos st hc]
      refine ⟨⟨?_, ?_⟩, ?_⟩
      · show (-1 : ℤ) ≤ st.historyIndex - 1
        omega
      · show st.historyIndex - 1 ≤ (st.layers.length : ℤ) - 1
        omega
      · intro rep hrep
        simp only [Option.mem_def, Option.some.injEq] at hrep
        subst hrep
        have htrue : decide (st.historyIndex - 1 < ((st.layers.length : ℤ) - 1))
            = true := by
          simp only [decide_eq_true_eq]
          omega
        show (decide (-1 < st.historyIndex - 1), true)
            = (decide (-1 < st.historyIndex - 1),
               decide (st.historyIndex - 1 < ((st.layers.length : ℤ) - 1)))
        rw [htrue]
    · rw [undo_of_nonpos st hc]
      refine ⟨⟨h1, h2⟩, ?_⟩
      intro rep hrep
      simp at hrep
  · by_cases hc : st.historyIndex < (st.layers.length : ℤ) - 1
    · rw [redo_of_lt st hc]
      refine ⟨⟨?_, ?_⟩, ?_⟩
      · show (-1 : ℤ) ≤ st.historyIndex + 1
        omega
      · show st.historyIndex + 1 ≤ (st.layers.length : ℤ) - 1
        omega
      · intro rep hrep
        simp only [Option.mem_def, Option.some.injEq] at hrep
        subst hrep
        have htrue : decide (-1 < st.historyIndex + 1) = true := by
          simp only [decide_eq_true_eq]
          omega
        show (true, decide (st.historyIndex + 1 < ((st.layers.length : ℤ) - 1)))
            = (decide (-1 < st.historyIndex + 1),
               decide (st.historyIndex + 1 < ((st.layers.length : ℤ) - 1)))
        rw [htrue]
    · rw [redo_of_ge st hc]
      refine ⟨⟨h1, h2⟩, ?_⟩
      intro rep hrep
      simp at hrep
  · constructor
    · show (-1 : ℤ) ≤ -1
      norm_num
    · show (-1 : ℤ) ≤ ((List.length ([] : List α) : ℤ)) - 1
      norm_num
  · show ((false : Bool), (false : Bool))
        = (decide ((-1 : ℤ) < -1), decide ((-1 : ℤ) < (List.length ([] : List α) : ℤ) - 1))
    norm_num

/-- Witness for C8 at a concrete state: from `layers = [0, 1, 2]`,
`historyIndex = 0` (two redo steps available), `addLayer` truncates the
future layers and reports `(true, false)`. -/
theorem history_index_invariant_witness :
    (addLayer (HistoryState.mk [0, 1, 2] 0) (7 : ℕ)).1 = HistoryState.mk [0, 7] 1
    ∧ (addLayer (HistoryState.mk [0, 1, 2] 0) (7 : ℕ)).2 = (true, false) := by
  have h := history_index_invariant (HistoryState.mk [0, 1, 2] 0) (7 : ℕ)
    ⟨by decide, by decide⟩
  have h2 := h.1.2.1
  refine ⟨by decide, ?_⟩
  rw [h2]
  decide

/-- C2.  Undo/redo round trip: from any history state satisfying the
history-index invariant in which undo is enabled (`historyIndex > -1`),
performing `undo` and then `redo` restores exactly the original state — the
same layer array, the same `historyIndex`, and hence the same layers rendered
to the visible canvas. -/
theorem undo_redo_roundtrip {α : Type} (st : HistoryState α)
    (h : historyInv st) (hu : -1 < st.historyIndex) :
    (redo (undo st).1).1 = st
    ∧ visibleLayers (redo (undo st).1).1 = visibleLayers st := by
  obtain ⟨_, h2⟩ := h
  have hstep : (undo st).1 = ⟨st.layers, st.historyIndex - 1⟩ := by
    rw [undo_of_pos st hu]
  have hre : (redo (undo st).1).1 = st := by
    rw [hstep]
    have hc : (⟨st.layers, st.historyIndex - 1⟩ : HistoryState α).historyIndex
        < (((⟨st.layers, st.historyIndex - 1⟩ : HistoryState α).layers.length : ℤ) - 1) := by
      show st.historyIndex - 1 < (st.layers.length : ℤ) - 1
      omega
    rw [redo_of_lt _ hc]
    show (⟨st.layers, st.historyIndex - 1 + 1⟩ : HistoryState α) = st
    have : st.historyIndex - 1 + 1 = st.historyIndex := by omega
    rw [this]
  exact ⟨hre, by rw [hre]⟩

/-- Witness for C2 at a concrete state: `layers = ["L0", "L1"]`,
`historyIndex = 1`; undo then redo is the identity. -/
theorem undo_redo_roundtrip_witness :
    (redo (undo (HistoryState.mk ["L0", "L1"] 1)).1).1
      = HistoryState.mk ["L0", "L1"] 1 :=
  (undo_redo_roundtrip (HistoryState.mk ["L0", "L1"] 1)
    ⟨by decide, by decide⟩ (by decide)).1

/-- C3 (code bug).  App hands the generated image to `DrawingCanvas` under
the prop name `aiImageToLoad` (src/App.tsx line 685), but the component's
compositing effect reads the prop `aiDrawingToLoad`
(src/components/DrawingCanvas.tsx lines 5 and 167-194).  Evaluated at a
concrete generated image: with the props App actually passes, the effect
leaves the layer history unchanged and never signals `onAiDrawingComplete`
(first conjunct; second conjunct shows the read prop is `undefined`), whereas
under the prop name the component declares, the image is composited as a new
top layer on top of the untouched existing layer and completion is signalled
(third conjunct) — which is the claimed and clearly intended behavior. -/
theorem ai_compositing_prop_mismatch :
    aiDrawingEffect (appCanvasProps (some generatedImageExample) none)
      (HistoryState.mk ["userStroke"] 0)
      = (HistoryState.mk ["userStroke"] 0, false)
    ∧ readProp (appCanvasProps (some generatedImageExample) none) "aiDrawingToLoad"
      = none
    ∧ aiDrawingEffect [("aiDrawingToLoad", generatedImageExample)]
      (HistoryState.mk ["userStroke"] 0)
      = (HistoryState.mk ["userStroke", generatedImageExample] 1, true) := by
  refine ⟨?_, ?_, ?_⟩ <;> rfl

/-- The output of a non-suppressed `onaudioprocess` call is either just the
PCM blob or the canvas image followed by the PCM blob. -/
lemma onaudioprocess_output (canvasUrl : Option String) (buffer : List ℚ)
    (st : TurnState) :
    (onaudioprocess false canvasUrl buffer st).2
      = [RealtimeInput.audioPcm (createBlob buffer)]
    ∨ ∃ b64, (onaudioprocess false canvasUrl buffer st).2
      = [RealtimeInput.imagePng b64, RealtimeInput.audioPcm (createBlob buffer)] := by
  obtain ⟨hs, snap⟩ := st
  cases hs
  · rcases canvasUrl with _ | url
    · left
      rfl
    · by_cases hu : url = ""
      · left
        simp [onaudioprocess, hu]
      · right
        exact ⟨dataUrlBase64 url, by simp [onaudioprocess, hu]⟩
  · left
    rfl

/-- C5.  Microphone capture → PCM encoding → streaming send: a buffer arriving
while the AI is drawing is discarded — the handler returns with no state
change and nothing sent; otherwise the buffer is PCM-encoded with `createBlob`
and sent via `sendRealtimeInput({ media: pcmBlob })` (it is the last message
of the call), and every PCM blob the call sends is exactly `createBlob` of
that buffer. -/
theorem mic_buffers_encoded_and_sent (canvasUrl : Option String)
    (buffer : List ℚ) (st : TurnState) :
    onaudioprocess true canvasUrl buffer st = (st, [])
    ∧ (onaudioprocess false canvasUrl buffer st).2.getLast?
        = some (RealtimeInput.audioPcm (createBlob buffer))
    ∧ (∀ pcm, RealtimeInput.audioPcm pcm ∈ (onaudioprocess false canvasUrl buffer st).2 →
        pcm = createBlob buffer) := by
  refine ⟨rfl, ?_, ?_⟩
  · rcases onaudioprocess_output canvasUrl buffer st with h | ⟨b64, h⟩ <;> rw [h] <;> rfl
  · intro pcm hmem
    rcases onaudioprocess_output canvasUrl buffer st with h | ⟨b64, h⟩ <;>
      rw [h] at hmem <;> simp at hmem <;> exact hmem

/-- Witness for C5 at concrete inputs: for an empty buffer with the snapshot
already sent, the single message is the PCM blob, and the blob equals
`createBlob` of the buffer. -/
theorem mic_buffers_encoded_and_sent_witness :
    RealtimeInput.audioPcm [] ∈ (onaudioprocess false none [] ⟨true, none⟩).2
    ∧ ([] : List ℤ) = createBlob [] := by
  constructor
  · decide
  · exact (mic_buffers_encoded_and_sent none [] ⟨true, none⟩).2.2 [] (by decide)

/-- Image-send counts add across list append. -/
lemma countImageSends_append (l1 l2 : List RealtimeInput) :
    countImageSends (l1 ++ l2) = countImageSends l1 + countImageSends l2 := by
  induction l1 with
  | nil => simp [countImageSends]
  | cons m rest ih =>
      cases m <;> simp [countImageSends, ih] <;> omega

/-- Once the canvas has been sent for the current turn, any event other than
a `turnComplete` server message keeps the flag set, keeps the stored snapshot,
and sends no further canvas image. -/
lemma sessionStep_sent (st : TurnState) (e : SessionEvent)
    (hst : st.hasSentCanvasForThisTurn = true)
    (he : e ≠ SessionEvent.serverTurnComplete) :
    (sessionStep st e).1.hasSentCanvasForThisTurn = true
    ∧ (sessionStep st e).1.turnCanvasSnapshot = st.turnCanvasSnapshot
    ∧ countImageSends (sessionStep st e).2 = 0 := by
  cases e with
  | audioProcess d url buf =>
      cases d
      · obtain ⟨hs, snap⟩ := st
        simp only at hst
        subst hst
        exact ⟨rfl, rfl, rfl⟩
      · exact ⟨hst, rfl, rfl⟩
  | serverTurnComplete => exact absurd rfl he
  | serverOther => exact ⟨hst, rfl, rfl⟩

/-- Any single session event sends at most one canvas image, and if it does
send one the flag is set afterwards. -/
lemma sessionStep_image_count (st : TurnState) (e : SessionEvent) :
    countImageSends (sessionStep st e).2 = 0
    ∨ (countImageSends (sessionStep st e).2 = 1
       ∧ (sessionStep st e).1.hasSentCanvasForThisTurn = true) := by
  cases e with
  | audioProcess d url buf =>
      cases d
      · obtain ⟨hs, snap⟩ := st
        cases hs
        · rcases url with _ | u
          · left
            rfl
          · by_cases hu : u = ""
            · left
              simp [sessionStep, onaudioprocess, hu, countImageSends]
            · right
              refine ⟨?_, ?_⟩
              · simp [sessionStep, onaudioprocess, hu, countImageSends]
              · simp [sessionStep, onaudioprocess, hu]
        · left
          rfl
      · left
        rfl
  | serverTurnComplete =>
      left
      rfl
  | serverOther =>
      left
      rfl

/-- With the flag set and no `turnComplete` in the trace, no canvas image is
ever sent. -/
lemma sessionRun_count_zero (evs : List SessionEvent) (st : TurnState)
    (hst : st.hasSentCanvasForThisTurn = true)
    (hn : ∀ e ∈ evs, e ≠ SessionEvent.serverTurnComplete) :
    countImageSends (sessionRun st evs) = 0 := by
  induction evs generalizing st with
  | nil => rfl
  | cons e rest ih =>
      have he := hn e (List.mem_cons_self _ _)
      have hs := sessionStep_sent st e hst he
      show countImageSends
        ((sessionStep st e).2 ++ sessionRun (sessionStep st e).1 rest) = 0
      rw [countImageSends_append, hs.2.2,
        ih (sessionStep st e).1 hs.1 (fun x hx => hn x (List.mem_cons_of_mem _ hx))]

/-- Within a `turnComplete`-free trace, at most one canvas image is sent. -/
lemma sessionRun_count_le_one (evs : List SessionEvent) (st : TurnState)
    (hn : ∀ e ∈ evs, e ≠ SessionEvent.serverTurnComplete) :
    countImageSends (sessionRun st evs) ≤ 1 := by
  induction evs generalizing st with
  | nil =>
      show countImageSends [] ≤ 1
      norm_num [countImageSends]
  | cons e rest ih =>
      have hrest : ∀ x ∈ rest, x ≠ SessionEvent.serverTurnComplete :=
        fun x hx => hn x (List.mem_cons_of_mem _ hx)
      show countImageSends
        ((sessionStep st e).2 ++ sessionRun (sessionStep st e).1 rest) ≤ 1
      rw [countImageSends_append]
      rcases sessionStep_image_count st e with h0 | ⟨h1, hsent⟩
      · rw [h0]
        simpa using ih (sessionStep st e).1 hrest
      · rw [h1, sessionRun_count_zero rest (sessionStep st e).1 hsent hrest]

/-- C9.  At most one canvas snapshot per model turn: across any sequence of
session events containing no `turnComplete`, at most one canvas image is sent
(first conjunct); the first `onaudioprocess` after a turn begins (flag clear,
snapshot empty) sends the canvas PNG, stores the snapshot and sets the flag
(second conjunct); any event other than a `turnComplete` server message
leaves a set flag set and the stored snapshot untouched — they are reset only
by `turnComplete` (third and fourth conjuncts). -/
theorem canvas_snapshot_once_per_turn (st : TurnState) (evs : List SessionEvent)
    (hn : ∀ e ∈ evs, e ≠ SessionEvent.serverTurnComplete) :
    countImageSends (sessionRun st evs) ≤ 1
    ∧ (∀ url buf, url ≠ "" →
        sessionStep ⟨false, none⟩ (SessionEvent.audioProcess false (some url) buf)
          = (⟨true, some url⟩,
             [RealtimeInput.imagePng (dataUrlBase64 url),
              RealtimeInput.audioPcm (createBlob buf)]))
    ∧ (∀ st2 : TurnState, ∀ e : SessionEvent,
        e ≠ SessionEvent.serverTurnComplete →
        st2.hasSentCanvasForThisTurn = true →
        (sessionStep st2 e).1.hasSentCanvasForThisTurn = true
        ∧ (sessionStep st2 e).1.turnCanvasSnapshot = st2.turnCanvasSnapshot)
    ∧ sessionStep st SessionEvent.serverTurnComplete = (⟨false, none⟩, []) := by
  refine ⟨sessionRun_count_le_one evs st hn, ?_, ?_, rfl⟩
  · intro url buf hu
    simp [sessionStep, onaudioprocess, hu]
  · intro st2 e he hst
    exact ⟨(sessionStep_sent st2 e hst he).1, (sessionStep_sent st2 e hst he).2.1⟩

/-- Witness for C9 at a concrete trace: two microphone callbacks inside one
turn send exactly one canvas image. -/
theorem canvas_snapshot_once_per_turn_witness :
    countImageSends (sessionRun ⟨false, none⟩
      [SessionEvent.audioProcess false (some "data:image/png;base64,CANVAS") [],
       SessionEvent.audioProcess false (some "data:image/png;base64,CANVAS") []]) ≤ 1 := by
  refine (canvas_snapshot_once_per_turn ⟨false, none⟩ _ ?_).1
  intro e he
  simp only [List.mem_cons, List.not_mem_nil, or_false] at he
  rcases he with rfl | rfl <;> simp

/-- C6.  Save/restore round trip: saving a (non-empty) canvas data URL stores
it under `savedDrawingKey`; reading that key on the next app start yields the
same URL, and initializing the canvas from it makes the saved image the
single layer rendered to the visible canvas. -/
theorem save_then_reload_restores (s : Storage) (url : String) (h : url ≠ "") :
    loadSavedDrawing (handleSaveDrawing url s) = some url
    ∧ visibleLayers (initDrawingCanvas (loadSavedDrawing (handleSaveDrawing url s)))
      = [url] := by
  have hsave : handleSaveDrawing url s = storageSetItem s savedDrawingKey url := by
    unfold handleSaveDrawing
    rw [if_pos h]
  have hmatch : loadSavedDrawing (storageSetItem s savedDrawingKey url)
      = if url ≠ "" then some url else none := rfl
  have hload : loadSavedDrawing (handleSaveDrawing url s) = some url := by
    rw [hsave, hmatch, if_pos h]
  refine ⟨hload, ?_⟩
  rw [hload]
  rfl

/-- Witness for C6 at concrete inputs: saving into empty storage and
reloading reproduces the saved image as the canvas content. -/
theorem save_then_reload_restores_witness :
    loadSavedDrawing (handleSaveDrawing "data:image/png;base64,SAVED" [])
      = some "data:image/png;base64,SAVED"
    ∧ visibleLayers (initDrawingCanvas (loadSavedDrawing
        (handleSaveDrawing "data:image/png;base64,SAVED" [])))
      = ["data:image/png;base64,SAVED"] :=
  save_then_reload_restores [] "data:image/png;base64,SAVED" (by decide)

/-- C7.  Exactly one persistent key: no operation changes the value stored at
any key other than `savedDrawingKey`, and an operation that changes
persistent storage at all is a `handleSaveDrawing`, which wrote its canvas
data URL under `savedDrawingKey`. -/
theorem single_persistent_storage_key (op : AppOperation) (s : Storage) :
    (∀ k, k ≠ savedDrawingKey →
      storageGetItem (opStorageEffect op s) k = storageGetItem s k)
    ∧ (opStorageEffect op s ≠ s →
      ∃ u, op = AppOperation.opHandleSaveDrawing u
        ∧ storageGetItem (opStorageEffect op s) savedDrawingKey = some u) := by
  cases op
  case opHandleSaveDrawing u =>
    by_cases hu : u = ""
    · subst hu
      constructor
      · intro k hk
        rfl
      · intro hne
        exact absurd rfl hne
    · have hsave : opStorageEffect (AppOperation.opHandleSaveDrawing u) s
          = (savedDrawingKey, u) :: s := by
        show handleSaveDrawing u s = _
        unfold handleSaveDrawing storageSetItem
        rw [if_pos hu]
      constructor
      · intro k hk
        rw [hsave]
        show (List.find? (fun p => p.1 = k) ((savedDrawingKey, u) :: s)).map Prod.snd
            = storageGetItem s k
        rw [List.find?_cons_of_neg]
        · rfl
        · simp only [decide_eq_true_eq]
          exact fun hh => hk hh.symm
      · intro _
        refine ⟨u, rfl, ?_⟩
        rw [hsave]
        rfl
  all_goals exact ⟨fun k hk => rfl, fun hne => absurd rfl hne⟩

/-- Witness for C7 at concrete inputs: saving a drawing into empty storage
leaves every other key unchanged, and the only changed binding is the saved
data URL under `savedDrawingKey`. -/
theorem single_persistent_storage_key_witness :
    storageGetItem
      (opStorageEffect (AppOperation.opHandleSaveDrawing "data:image/png;base64,X") [])
      "theme" = storageGetItem [] "theme"
    ∧ ∃ u, AppOperation.opHandleSaveDrawing "data:image/png;base64,X"
        = AppOperation.opHandleSaveDrawing u
      ∧ storageGetItem
          (opStorageEffect (AppOperation.opHandleSaveDrawing "data:image/png;base64,X") [])
          savedDrawingKey = some u := by
  constructor
  · exact (single_persistent_storage_key
      (AppOperation.opHandleSaveDrawing "data:image/png;base64,X") []).1 "theme" (by decide)
  · exact (single_persistent_storage_key
      (AppOperation.opHandleSaveDrawing "data:image/png;base64,X") []).2 (by decide)

/-- C4 (counterexample).  The claim that setting the status flag (with a
user-facing message) is the entirety of the error response is false at a
concrete input: on an API-key session error from an active session, besides
setting the status to `error` the handler also clears `isKeySelected`, resets
`nextAudioStartTime` from 5 to 0, and clears the scheduled playback sources;
the `handleStart` catch path likewise resets `nextAudioStartTime`. -/
theorem error_path_only_flag_counterexample :
    (onSessionError "API key not valid" errStateExample).status = Status.error
    ∧ (onSessionError "API key not valid" errStateExample).nextAudioStartTime
        ≠ errStateExample.nextAudioStartTime
    ∧ (onSessionError "API key not valid" errStateExample).isKeySelected
        ≠ errStateExample.isKeySelected
    ∧ (onSessionError "API key not valid" errStateExample).playbackSourceCount
        ≠ errStateExample.playbackSourceCount
    ∧ (handleStartCatch errStateExample).nextAudioStartTime
        ≠ errStateExample.nextAudioStartTime := by
  refine ⟨rfl, ?_, ?_, ?_, ?_⟩ <;> decide

/-- C4 (amended).  On a session `onerror` callback and on a rejection of the
session-connect promise caught in `handleStart`, the handler sets the status
flag to `error` with a user-facing message and additionally runs `cleanup`:
it releases the wake lock, stops the microphone stream, disconnects the audio
nodes, closes both audio contexts, stops and clears the scheduled playback
sources, resets `nextAudioStartTime` to 0, pauses the drawing loop, and
resumes the radio if it was playing at session start; the key-error branch of
`onerror` also clears `isKeySelected`.  No other program state is modified. -/
theorem error_path_sets_flag_and_cleans_up (msg : String) (s : AppState) :
    onSessionError msg s =
      { status := Status.error
        aiMessage := sessionErrorMessage msg
        isKeySelected :=
          if containsSubstr msg "not found" || containsSubstr msg "API key not valid"
          then false else s.isKeySelected
        wakeLockHeld := false
        micStreamActive := false
        scriptProcessorConnected := false
        mediaSourceConnected := false
        inputContextClosed := true
        outputContextClosed := true
        playbackSourceCount := 0
        nextAudioStartTime := 0
        drawingAudioPlaying := false
        radioPlaying := if s.radioWasPlayingOnStart then true else s.radioPlaying
        radioWasPlayingOnStart := false }
    ∧ handleStartCatch s =
      { status := Status.error
        aiMessage := "Failed to start. Check console for details."
        isKeySelected := s.isKeySelected
        wakeLockHeld := false
        micStreamActive := false
        scriptProcessorConnected := false
        mediaSourceConnected := false
        inputContextClosed := true
        outputContextClosed := true
        playbackSourceCount := 0
        nextAudioStartTime := 0
        drawingAudioPlaying := false
        radioPlaying := if s.radioWasPlayingOnStart then true else s.radioPlaying
        radioWasPlayingOnStart := false } :=
  ⟨rfl, rfl⟩

/-- C10.  AI-image pixel normalization (pixel-processing DrawingCanvas
variants, src/unnamed/part_001 and src/unnamed/part_003): a pixel whose
original alpha exceeds 100 and whose average RGB brightness is below 128
becomes the opaque draw color `(64, 64, 64, 255)`; every other pixel becomes
fully transparent (alpha 0); over a whole image, every processed pixel is in
exactly one of these two states. -/
theorem ai_pixel_two_states (p : Pixel) (img : List Pixel) :
    (100 < p.a ∧ ((p.r : ℚ) + p.g + p.b) / 3 < 128 →
      processAiPixel p = ⟨64, 64, 64, 255⟩)
    ∧ (¬(100 < p.a ∧ ((p.r : ℚ) + p.g + p.b) / 3 < 128) →
      (processAiPixel p).a = 0)
    ∧ (∀ q ∈ processAiImage img, q = ⟨64, 64, 64, 255⟩ ∨ q.a = 0) := by
  refine ⟨?_, ?_, ?_⟩
  · intro h
    unfold processAiPixel
    rw [if_pos h]
  · intro h
    unfold processAiPixel
    rw [if_neg h]
  · intro q hq
    simp only [processAiImage, List.mem_map] at hq
    obtain ⟨p0, _, rfl⟩ := hq
    by_cases h : 100 < p0.a ∧ ((p0.r : ℚ) + p0.g + p0.b) / 3 < 128
    · left
      unfold processAiPixel
      rw [if_pos h]
    · right
      unfold processAiPixel
      rw [if_neg h]

/-- Witness for C10 at concrete pixels: a dark, sufficiently opaque pixel
becomes the draw color; a bright pixel becomes transparent. -/
theorem ai_pixel_two_states_witness :
    processAiPixel ⟨10, 20, 30, 200⟩ = ⟨64, 64, 64, 255⟩
    ∧ (processAiPixel ⟨250, 250, 250, 200⟩).a = 0 := by
  constructor
  · exact (ai_pixel_two_states ⟨10, 20, 30, 200⟩ []).1 (by norm_num)
  · exact (ai_pixel_two_states ⟨250, 250, 250, 200⟩ []).2.1 (by norm_num)
